import Mathlib

/-!
Verification of the handybars template tokenizer (src/lib.rs, src/parse.rs).

Byte strings are modelled as lists of characters, one element per input byte
(every input considered here is ASCII, so the byte/char distinction is
inessential and UTF-8 re-decoding of a slice is the identity).  Machine
integers (`usize`) are modelled as `Nat`; none of the arithmetic involved can
overflow for any realistic input.  Rust panics (out-of-bounds indexing) are
modelled as an explicit `panic` outcome.  The `while` loops of the source are
modelled as structurally recursive functions over a fuel argument that starts
at `length + 1`; since the scan cursor strictly increases on every iteration,
this fuel is never exhausted on the top-level entry points.
-/

namespace Handybars

/-- Input buffers and string slices, one list element per byte. -/
abbrev Bytes := List Char

/-- Fault kinds, `ErrorType` in parse.rs. -/
inductive ErrorType where
  | EmptyVariableSegment
  | NewlineInVariableSegment
deriving DecidableEq, Repr

/-- Positioned fault, `Error` in parse.rs.  `offset` is `(column, line)`, zero-based. -/
structure Error where
  offset : Nat × Nat
  ty : ErrorType
deriving DecidableEq, Repr

/-- `Error::add_offset` from parse.rs: componentwise addition onto the stored position. -/
def Error.add_offset (e : Error) (o : Nat × Nat) : Error :=
  { e with offset := (e.offset.1 + o.1, e.offset.2 + o.2) }

/-- `VariableInner` from lib.rs: either an ordered list of segments or a single name. -/
inductive VariableInner where
  | Segments (segs : List Bytes)
  | Single (name : Bytes)
deriving DecidableEq, Repr

/-- `Variable` from lib.rs, a transparent wrapper around `VariableInner`. -/
structure Variable where
  inner : VariableInner
deriving DecidableEq, Repr

/-- `Variable::single_unchecked` from lib.rs: wraps a name with no validation. -/
def Variable.single_unchecked (name : Bytes) : Variable :=
  ⟨.Single name⟩

/-- `Variable::single` from lib.rs.  The Rust function asserts that the name contains
no dot separator; the assertion failure (a panic) is modelled as `none`. -/
def Variable.single (name : Bytes) : Option Variable :=
  if name.contains '.' then none else some (Variable.single_unchecked name)

/-- `Variable::from_parts` from lib.rs: wraps the given list as a `Segments` path,
with no validation of any kind. -/
def Variable.from_parts (parts : List Bytes) : Variable :=
  ⟨.Segments parts⟩

/-- `VariableParseError` from lib.rs: carries the byte offset of the empty segment. -/
structure VariableParseError where
  offset : Nat
deriving DecidableEq, Repr

/-- Splitting on `'.'` exactly as Rust's `str::split('.')`: every dot separates two
pieces, empty pieces are kept, and the empty string yields one empty piece. -/
def splitDot : Bytes → List Bytes
  | [] => [[]]
  | c :: rest =>
    match splitDot rest with
    | [] => [[]]
    | p :: ps => if c = '.' then [] :: p :: ps else (c :: p) :: ps

/-- The validation loop of `Variable::from_str` (lib.rs lines 60-67): walks the split
segments keeping a running byte offset (each prior segment length plus one for its
separator) and reports the offset of the first empty segment, if any. -/
def findEmptySeg : List Bytes → Nat → Option Nat
  | [], _ => none
  | seg :: rest, offset =>
    if seg = [] then some offset else findEmptySeg rest (offset + seg.length + 1)

/-- `Variable::from_str` from lib.rs: split on dots, fail at the first empty segment,
otherwise wrap all the pieces with `from_parts`. -/
def Variable.from_str (s : Bytes) : Except VariableParseError Variable :=
  match findEmptySeg (splitDot s) 0 with
  | some offset => Except.error ⟨offset⟩
  | none => Except.ok (Variable.from_parts (splitDot s))

/-- Structural Boolean equality on `VariableInner`, mirroring the derived `PartialEq`
of lib.rs: distinct constructors never compare equal, identical constructors compare
their contents element-wise. -/
def VariableInner.eqb : VariableInner → VariableInner → Bool
  | .Segments a, .Segments b => a == b
  | .Single a, .Single b => a == b
  | _, _ => false

/-- Structural Boolean equality on `Variable`, mirroring the derived `PartialEq`. -/
def Variable.eqb (a b : Variable) : Bool :=
  a.inner.eqb b.inner

/-- The segment sequence denoted by a path: a `Single` name is one segment. -/
def Variable.segList : Variable → List Bytes
  | ⟨.Segments l⟩ => l
  | ⟨.Single n⟩ => [n]

/-- The specification's path invariant: at least one segment and no empty segment. -/
def goodPath (v : Variable) : Prop :=
  v.segList ≠ [] ∧ ∀ s ∈ v.segList, s ≠ []

lemma splitDot_ne_nil : ∀ s : Bytes, splitDot s ≠ []
  | [] => by simp [splitDot]
  | c :: rest => by
    simp only [splitDot]
    cases h : splitDot rest with
    | nil => simp
    | cons p ps => by_cases hc : c = '.' <;> simp [hc]

lemma findEmptySeg_eq_none {l : List Bytes} :
    ∀ {off : Nat}, findEmptySeg l off = none → ∀ seg ∈ l, seg ≠ [] := by
  induction l with
  | nil => intro off _ seg hm; simp at hm
  | cons s rest ih =>
    intro off h seg hm
    simp only [findEmptySeg] at h
    by_cases hs : s = []
    · simp [hs] at h
    · rw [if_neg hs] at h
      rcases List.mem_cons.mp hm with rfl | hm
      · exact hs
      · exact ih h seg hm

lemma findEmptySeg_of_all {l : List Bytes} (h : ∀ seg ∈ l, seg ≠ []) :
    ∀ off : Nat, findEmptySeg l off = none := by
  induction l with
  | nil => intro off; simp [findEmptySeg]
  | cons s rest ih =>
    intro off
    simp only [findEmptySeg]
    rw [if_neg (h s (List.mem_cons_self s rest))]
    exact ih (fun seg hm => h seg (List.mem_cons_of_mem s hm)) _

/-- Scanning loop of `try_parse_variable_segment` (parse.rs lines 48-65): walk the
offsets of `input`; a dot at offset zero is an empty-segment fault, a dot further in
ends the segment (everything before it), a newline is a newline fault, anything else
moves on; falling off the end yields `none`.  The fuel starts at `input.length`, so
it runs out exactly when the offset passes the end of the input. -/
def tpvsGo (input : Bytes) (offset fuel : Nat) : Option (Except Error Bytes) :=
  match fuel with
  | 0 => none
  | fuel + 1 =>
    if offset < input.length then
      if input.getD offset ' ' = '.' then
        some (if offset = 0 then Except.error ⟨(offset, 0), .EmptyVariableSegment⟩
              else Except.ok (input.take offset))
      else if input.getD offset ' ' = '\n' then
        some (Except.error ⟨(offset, 0), .NewlineInVariableSegment⟩)
      else tpvsGo input (offset + 1) fuel
    else none

/-- `try_parse_variable_segment` from parse.rs. -/
def try_parse_variable_segment (input : Bytes) : Option (Except Error Bytes) :=
  tpvsGo input 0 input.length

/-- Outcome of `parse_template_inner`: `okv`/`err` model `Some(Ok ..)`/`Some(Err ..)`,
`noClose` models `None`, `panic` models the out-of-bounds index `input[head + 1]`
taken when a `'}'` is the last byte, and `fuelOut` is the (never reached at the
entry point) fuel exhaustion of the model. -/
inductive InnerRes where
  | okv (v : Variable) (len : Nat)
  | err (e : Error)
  | noClose
  | panic
  | fuelOut
deriving DecidableEq, Repr

/-- Loop of `parse_template_inner` (parse.rs lines 67-89).  At each head: if the two
bytes at `head` are `"}}"` , close (fault if no segment was collected, otherwise a
`Segments` path of everything collected, with the body length `head + 2`); checking
the second byte panics if `head` is the last offset.  Otherwise run the segment
scanner on the remaining input, collect a found segment or propagate its fault, and
advance by one byte.  `row` stays zero and `col` advances with `head`, as in the
source, which never treats a newline specially here. -/
def ptiGo (input : Bytes) (head : Nat) (segments : List Bytes) (row col fuel : Nat) :
    InnerRes :=
  match fuel with
  | 0 => .fuelOut
  | fuel + 1 =>
    if head < input.length then
      if input.getD head ' ' = '}' then
        if head + 1 < input.length then
          if input.getD (head + 1) ' ' = '}' then
            if segments.isEmpty then
              .err ⟨(col, row), .EmptyVariableSegment⟩
            else
              .okv (Variable.from_parts segments) (head + 2)
          else
            match try_parse_variable_segment (input.drop head) with
            | some (Except.ok seg) => ptiGo input (head + 1) (segments ++ [seg]) row (col + 1) fuel
            | some (Except.error e) => .err e
            | none => ptiGo input (head + 1) segments row (col + 1) fuel
        else .panic
      else
        match try_parse_variable_segment (input.drop head) with
        | some (Except.ok seg) => ptiGo input (head + 1) (segments ++ [seg]) row (col + 1) fuel
        | some (Except.error e) => .err e
        | none => ptiGo input (head + 1) segments row (col + 1) fuel
    else .noClose

/-- `parse_template_inner` from parse.rs: the loop started at head 0 with no
segments and position counters at zero. -/
def parse_template_inner (input : Bytes) : InnerRes :=
  ptiGo input 0 [] 0 0 (input.length + 1)

/-- `Token` from parse.rs: a parsed variable reference or a literal slice. -/
inductive Token where
  | Variable (v : Handybars.Variable)
  | Str (s : Bytes)
deriving DecidableEq, Repr

/-- Outcome of `tokenize`: success, positioned fault, panic propagated from the body
parser, or (never reached at the entry point) fuel exhaustion of the model. -/
inductive TokRes where
  | ok (toks : List Token)
  | err (e : Error)
  | panic
  | fuelOut
deriving DecidableEq, Repr

/-- Final flush of `tokenize` (parse.rs lines 140-143): if the pending-literal
marker has not caught up with the head, emit the run between them. -/
def tokFinish (chars : Bytes) (head tail : Nat) (tokens : List Token) : TokRes :=
  if tail ≠ head then .ok (tokens ++ [Token.Str ((chars.drop tail).take (head - tail))])
  else .ok tokens

/-- Scanning loop of `tokenize` (parse.rs lines 104-139).  The loop breaks (and
flushes) as soon as the head reaches the last byte.  On `"{{"` it runs
`parse_template_inner` on the rest: on success it advances the head past the whole
variable text *before* flushing the pending literal (so the flushed run includes the
variable's own source text, exactly as the source does), then records the variable
token; on a fault it adds the two-byte delimiter offset to the fault's column and
aborts; on no-close it falls through to the ordinary one-byte advance.  A newline
byte resets the column and bumps the row. -/
def tokGo (chars : Bytes) (head tail row col : Nat) (tokens : List Token) (fuel : Nat) :
    TokRes :=
  match fuel with
  | 0 => .fuelOut
  | fuel + 1 =>
    if head < chars.length then
      if head = chars.length - 1 then
        tokFinish chars head tail tokens
      else if chars.getD head ' ' = '{' ∧ chars.getD (head + 1) ' ' = '{' then
        match parse_template_inner (chars.drop (head + 2)) with
        | .okv var len =>
          tokGo chars (head + (len + 2)) (head + (len + 2)) row col
            ((if tail ≠ head + (len + 2) then
                tokens ++ [Token.Str ((chars.drop tail).take (head + (len + 2) - tail))]
              else tokens) ++ [Token.Variable var]) fuel
        | .err e => .err (e.add_offset (col + 2, row))
        | .noClose => tokGo chars (head + 1) tail row (col + 1) tokens fuel
        | .panic => .panic
        | .fuelOut => .fuelOut
      else if chars.getD head ' ' = '\n' then
        tokGo chars (head + 1) tail (row + 1) 0 tokens fuel
      else
        tokGo chars (head + 1) tail row (col + 1) tokens fuel
    else tokFinish chars head tail tokens

/-- `tokenize` from parse.rs: empty input short-circuits to no tokens, otherwise the
scan starts with all counters at zero and an empty token list. -/
def tokenize (input : Bytes) : TokRes :=
  if input.isEmpty then .ok []
  else tokGo input 0 0 0 0 [] (input.length + 1)

/-- Claim C1: the claim says `"x{{ a.b.c }}y"` tokenizes to the literal `"x"`, a
variable reference with segments `a`, `b`, `c` (whitespace trimmed), and the literal
`"y"`.  On the code it instead fails with `EmptyVariableSegment` at column 3 of line
0: the body scanner advances one byte at a time without skipping a parsed segment,
so it lands on the first dot and reports an empty segment (and no whitespace is ever
trimmed). -/
theorem c1_embedded_dotted_variable_fails :
    tokenize ['x','{','{',' ','a','.','b','.','c',' ','}','}','y']
      = TokRes.err ⟨(3, 0), .EmptyVariableSegment⟩ := by
  decide

/-- Claim C2: the claim says an input with no `{{` yields one literal token equal to
the whole input.  On the code `"ab"` yields only `Literal("a")` and `"a"` yields no
token at all: the scan loop breaks as soon as the head reaches the last byte and the
final flush stops short of it, so the last byte of the input is always dropped.  The
empty input does yield zero tokens. -/
theorem c2_no_delimiter_drops_last_byte :
    tokenize ['a','b'] = TokRes.ok [Token.Str ['a']] ∧
    tokenize ['a'] = TokRes.ok [] ∧
    tokenize [] = TokRes.ok [] := by
  decide

/-- Claim C3: the claim (and the repository's own test) says `"{{ var }}etc"`
tokenizes to a variable reference for `var` followed by `Literal("etc")`.  On the
code it fails with `EmptyVariableSegment` at column 7 of line 0: a dot-free body
never accumulates any segment, so the closing `}}` finds the segment list empty. -/
theorem c3_single_segment_variable_fails :
    tokenize ['{','{',' ','v','a','r',' ','}','}','e','t','c']
      = TokRes.err ⟨(7, 0), .EmptyVariableSegment⟩ := by
  decide

/-- Claim C4: the claim says `tokenize` never aborts, including when `{{` is
followed by a body ending in a single `}`.  On the code the input `"{{a}"` panics:
`parse_template_inner` reads `input[head + 1]` out of bounds when a lone `'}'` is
the final byte of the buffer. -/
theorem c4_lone_closing_brace_panics :
    tokenize ['{','{','a','}'] = TokRes.panic := by
  decide

/-- Claim C5: the claim says `"abc {{ def"` (an unterminated `{{`) tokenizes to a
single literal equal to the whole input.  On the code the unterminated delimiter is
indeed not an error here, but the single literal produced is `"abc {{ de"`: the
final byte is dropped by the early loop break. -/
theorem c5_unterminated_literal_drops_last_byte :
    tokenize ['a','b','c',' ','{','{',' ','d','e','f']
      = TokRes.ok [Token.Str ['a','b','c',' ','{','{',' ','d','e']] := by
  decide

/-- Claim C6: the claim says a raw newline inside an open `{{ … }}` body always
fails with `NewlineInVariableSegment` at the newline's position.  On the code
`"{{a.b\nc}}"` instead fails with `EmptyVariableSegment` at column 2 of line 0 (the
newline is at column 5): the scanner reaches the first dot before it ever looks at
the newline.  (The dot-free case `"{{ a\nb }}"` does behave as claimed, which is
recorded here as well.) -/
theorem c6_newline_after_dot_reports_wrong_fault :
    tokenize ['{','{','a','.','b','\n','c','}','}']
      = TokRes.err ⟨(2, 0), .EmptyVariableSegment⟩ ∧
    tokenize ['{','{',' ','a','\n','b',' ','}','}']
      = TokRes.err ⟨(4, 0), .NewlineInVariableSegment⟩ := by
  decide

/-- Claim C7: the claim says a body that closes at `}}` with zero accumulated
segments — an empty or whitespace-only body — always fails with
`EmptyVariableSegment`.  On the code `"{{ }}."` succeeds instead: the segment
scanner reads straight past the closing `}}` , finds the later dot, and pushes
`" }}"` as a segment, so the whitespace-only body produces a variable token (and
the flushed literal even contains the delimiter text). -/
theorem c7_whitespace_body_can_succeed :
    tokenize ['{','{',' ','}','}','.']
      = TokRes.ok [Token.Str ['{','{',' ','}','}'],
                   Token.Variable (Variable.from_parts [[' ','}','}']])] := by
  decide

/-- Claim C8: `Variable` string parsing splits on dots; `"a..b"` fails with offset 2
(the second dot, as the running sum of prior segment lengths plus separators), `""`
fails with offset 0, and any input whose dot-split has no empty piece parses to a
`Segments` path holding exactly those pieces. -/
theorem c8_variable_path_parse (s : Bytes) :
    Variable.from_str ['a','.','.','b'] = Except.error ⟨2⟩ ∧
    Variable.from_str [] = Except.error ⟨0⟩ ∧
    ((∀ seg ∈ splitDot s, seg ≠ []) →
      Variable.from_str s = Except.ok (Variable.from_parts (splitDot s))) := by
  refine ⟨rfl, rfl, fun h => ?_⟩
  unfold Variable.from_str
  rw [findEmptySeg_of_all h 0]

/-- Witness for C8 at the concrete input `"a.b"`, whose split has no empty piece. -/
theorem c8_variable_path_parse_witness :
    Variable.from_str ['a','.','b'] = Except.ok (Variable.from_parts [['a'], ['b']]) :=
  (c8_variable_path_parse ['a','.','b']).2.2 (by decide)

lemma tpvsGo_ok_ne_nil (input : Bytes) :
    ∀ fuel offset seg, tpvsGo input offset fuel = some (Except.ok seg) → seg ≠ [] := by
  intro fuel
  induction fuel with
  | zero => intro offset seg h; simp [tpvsGo] at h
  | succ fuel ih =>
    intro offset seg h
    simp only [tpvsGo] at h
    by_cases h1 : offset < input.length
    · rw [if_pos h1] at h
      by_cases h2 : input.getD offset ' ' = '.'
      · rw [if_pos h2] at h
        by_cases h3 : offset = 0
        · rw [if_pos h3] at h; simp at h
        · rw [if_neg h3] at h
          have hseg : input.take offset = seg := Except.ok.inj (Option.some.inj h)
          intro hnil
          rw [hnil] at hseg
          have hlen := congrArg List.length hseg
          rw [List.length_take] at hlen
          simp only [List.length_nil] at hlen
          rcases Nat.min_eq_zero_iff.mp hlen with h' | h' <;> omega
      · rw [if_neg h2] at h
        by_cases h4 : input.getD offset ' ' = '\n'
        · rw [if_pos h4] at h; simp at h
        · rw [if_neg h4] at h; exact ih (offset + 1) seg h
    · rw [if_neg h1] at h; simp at h

lemma ptiGo_okv_good (input : Bytes) :
    ∀ fuel head segments row col v n,
      (∀ s ∈ segments, s ≠ []) →
      ptiGo input head segments row col fuel = InnerRes.okv v n →
      goodPath v := by
  intro fuel
  induction fuel with
  | zero => intro head segments row col v n _ h; simp [ptiGo] at h
  | succ fuel ih =>
    intro head segments row col v n hsegs h
    simp only [ptiGo] at h
    by_cases h1 : head < input.length
    · rw [if_pos h1] at h
      by_cases h2 : input.getD head ' ' = '}'
      · rw [if_pos h2] at h
        by_cases h3 : head + 1 < input.length
        · rw [if_pos h3] at h
          by_cases h4 : input.getD (head + 1) ' ' = '}'
          · rw [if_pos h4] at h
            by_cases h5 : segments.isEmpty
            · rw [if_pos h5] at h; simp at h
            · rw [if_neg h5] at h
              cases h
              constructor
              · simp only [Variable.from_parts, Variable.segList]
                intro hnil
                rw [hnil] at h5
                exact h5 rfl
              · intro s hs
                exact hsegs s (by simpa [Variable.from_parts, Variable.segList] using hs)
          · rw [if_neg h4] at h
            cases htp : try_parse_variable_segment (input.drop head) with
            | none => rw [htp] at h; exact ih _ _ _ _ _ _ hsegs h
            | some r =>
              cases r with
              | ok seg =>
                rw [htp] at h
                refine ih _ _ _ _ _ _ ?_ h
                intro s hs
                rcases List.mem_append.mp hs with hs | hs
                · exact hsegs s hs
                · rw [List.mem_singleton.mp hs]
                  exact tpvsGo_ok_ne_nil (input.drop head) _ 0 seg htp
              | error e => rw [htp] at h; simp at h
        · rw [if_neg h3] at h; simp at h
      · rw [if_neg h2] at h
        cases htp : try_parse_variable_segment (input.drop head) with
        | none => rw [htp] at h; exact ih _ _ _ _ _ _ hsegs h
        | some r =>
          cases r with
          | ok seg =>
            rw [htp] at h
            refine ih _ _ _ _ _ _ ?_ h
            intro s hs
            rcases List.mem_append.mp hs with hs | hs
            · exact hsegs s hs
            · rw [List.mem_singleton.mp hs]
              exact tpvsGo_ok_ne_nil (input.drop head) _ 0 seg htp
          | error e => rw [htp] at h; simp at h
    · rw [if_neg h1] at h; simp at h

lemma tokFinish_ok_mem {chars : Bytes} {head tail : Nat} {tokens toks : List Token}
    (h : tokFinish chars head tail tokens = TokRes.ok toks) :
    ∀ v : Variable, Token.Variable v ∈ toks → Token.Variable v ∈ tokens := by
  unfold tokFinish at h
  split_ifs at h with h1
  · cases h
    intro v hv
    rcases List.mem_append.mp hv with hv | hv
    · exact hv
    · simp at hv
  · cases h
    intro v hv
    exact hv

lemma tokGo_ok_good (chars : Bytes) :
    ∀ fuel head tail row col tokens toks,
      (∀ v : Variable, Token.Variable v ∈ tokens → goodPath v) →
      tokGo chars head tail row col tokens fuel = TokRes.ok toks →
      ∀ v : Variable, Token.Variable v ∈ toks → goodPath v := by
  intro fuel
  induction fuel with
  | zero => intro head tail row col tokens toks _ h; simp [tokGo] at h
  | succ fuel ih =>
    intro head tail row col tokens toks htok h
    simp only [tokGo] at h
    by_cases h1 : head < chars.length
    · rw [if_pos h1] at h
      by_cases h2 : head = chars.length - 1
      · rw [if_pos h2] at h
        intro v hv
        exact htok v (tokFinish_ok_mem h v hv)
      · rw [if_neg h2] at h
        by_cases h3 : chars.getD head ' ' = '{' ∧ chars.getD (head + 1) ' ' = '{'
        · rw [if_pos h3] at h
          cases hpti : parse_template_inner (chars.drop (head + 2)) with
          | okv var len =>
            rw [hpti] at h
            have hvar : goodPath var :=
              ptiGo_okv_good (chars.drop (head + 2)) _ 0 [] 0 0 var len (by simp) hpti
            refine ih _ _ _ _ _ _ ?_ h
            intro v hv
            rcases List.mem_append.mp hv with hv | hv
            · by_cases h4 : tail ≠ head + (len + 2)
              · rw [if_pos h4] at hv
                rcases List.mem_append.mp hv with hv | hv
                · exact htok v hv
                · simp at hv
              · rw [if_neg h4] at hv
                exact htok v hv
            · obtain rfl : v = var := by simpa using List.mem_singleton.mp hv
              exact hvar
          | err e => rw [hpti] at h; simp at h
          | noClose => rw [hpti] at h; exact ih _ _ _ _ _ _ htok h
          | panic => rw [hpti] at h; simp at h
          | fuelOut => rw [hpti] at h; simp at h
        · rw [if_neg h3] at h
          by_cases h5 : chars.getD head ' ' = '\n'
          · rw [if_pos h5] at h; exact ih _ _ _ _ _ _ htok h
          · rw [if_neg h5] at h; exact ih _ _ _ _ _ _ htok h
    · rw [if_neg h1] at h
      intro v hv
      exact htok v (tokFinish_ok_mem h v hv)

/-- Counterexample to claim C9 as stated: `from_parts` is a public constructor and
performs no validation, so `Variable::from_parts([""])` is constructible through the
listed public operations yet holds an empty segment, violating the claimed
invariant. -/
theorem c9_counterexample_from_parts_empty_segment :
    ¬ goodPath (Variable.from_parts [[]]) := by
  intro h
  exact h.2 [] (by simp [Variable.from_parts, Variable.segList]) rfl

/-- Claim C9 (amended): every path produced by `Variable` string parsing
(`from_str`), and every path inside a variable token of a successful `tokenize`
run, has a non-empty segment sequence in which no segment is the empty string.
(Paths built directly with `single`, `single_unchecked` or `from_parts` enjoy no
such guarantee, since those constructors do not validate their arguments.) -/
theorem c9_amended_parse_and_tokenizer_paths_good
    (s input : Bytes) (v : Variable) (toks : List Token) :
    (Variable.from_str s = Except.ok v → goodPath v) ∧
    (tokenize input = TokRes.ok toks → Token.Variable v ∈ toks → goodPath v) := by
  constructor
  · intro h
    unfold Variable.from_str at h
    cases hfe : findEmptySeg (splitDot s) 0 with
    | some off => rw [hfe] at h; simp at h
    | none =>
      rw [hfe] at h
      obtain rfl : Variable.from_parts (splitDot s) = v := by simpa using h
      constructor
      · simpa [Variable.from_parts, Variable.segList] using splitDot_ne_nil s
      · intro seg hseg
        exact findEmptySeg_eq_none hfe seg
          (by simpa [Variable.from_parts, Variable.segList] using hseg)
  · intro h hv
    unfold tokenize at h
    split_ifs at h with h1
    · cases h
      simp at hv
    · exact tokGo_ok_good input _ 0 0 0 0 [] toks (by simp) h v hv

/-- Witness for the amended C9 at the concrete input `"{{ }}."` , whose token
sequence contains a variable token. -/
theorem c9_amended_witness :
    goodPath (Variable.from_parts [[' ','}','}']]) :=
  (c9_amended_parse_and_tokenizer_paths_good [] ['{','{',' ','}','}','.']
      (Variable.from_parts [[' ','}','}']])
      [Token.Str ['{','{',' ','}','}'],
       Token.Variable (Variable.from_parts [[' ','}','}']])]).2
    (by decide) (by decide)

/-- Claim C10: path equality (the derived structural equality of lib.rs) is
constructor-sensitive: `Single x` never compares equal to `Segments [x]`, and two
paths that do compare equal are structurally identical. -/
theorem c10_equality_constructor_sensitive (x : Bytes) (a b : Variable) :
    Variable.eqb ⟨.Single x⟩ ⟨.Segments [x]⟩ = false ∧
    (Variable.eqb a b = true → a = b) := by
  refine ⟨rfl, fun h => ?_⟩
  obtain ⟨ia⟩ := a
  obtain ⟨ib⟩ := b
  cases ia <;> cases ib <;>
    simp only [Variable.eqb, VariableInner.eqb, beq_iff_eq] at h <;>
    simp_all

/-- Witness for C10 at two concrete equal paths. -/
theorem c10_equality_constructor_sensitive_witness :
    Variable.eqb (Variable.single_unchecked ['a']) (Variable.single_unchecked ['a']) = true ∧
    Variable.single_unchecked ['a'] = Variable.single_unchecked ['a'] :=
  ⟨by decide, (c10_equality_constructor_sensitive ['a'] _ _).2 (by decide)⟩

end Handybars
